import Mathlib

/-!
# Verification of the th-e-core chunked CSV time-series store

A shallow embedding of `th_e_core/database.py` (class `CsvDatabase`), with
theorems checking the natural-language specification of the repository.

## Modelling conventions

* Timestamps are integers counting whole seconds (UTC).  All in-memory
  tables handled by `get`/`persist` are timezone-aware in UTC, so the
  `tz_convert(tz.utc)` at the start of `_write_file` and `astype(float)`
  are identities in the model; numeric cell values are rationals.
* A pandas `DataFrame` is modelled up to row and column order as a list of
  named columns, each an association list from timestamp to value; a `NaN`
  cell is simply absent.  All modelled operations (`combine_first`,
  `loc`-slicing, `truncate`, `head(1)`, `resample(..).sum()`) are
  order-insensitive, matching pandas semantics on its sorted indexes.
  `resample(..).sum()` is modelled without the zero-filled empty bins pandas
  inserts between occupied ones; no theorem below depends on those rows.
* The `while time <= end` loop of `CsvDatabase.get` (database.py:146-150) is
  modelled by structural recursion with an iteration budget of
  `(end + 1 - time)` steps, which dominates the number of iterations
  whenever the step `3600 * interval` is at least one second (i.e. for
  every bucket width of at least one hour; a non-positive bucket width
  would make the Python loop non-terminating and is outside the model).
* The reader's filesystem (`Fs`) is an association list from file name to
  the parsed table stored there — `get`'s chunk loads go through
  `_read_file`, whose successful results are tables.  The writer's
  filesystem (`FsRaw`) maps file names to raw chunk-file content, because
  `_write_file`'s merge re-reads the destination from its bytes and that
  read can fail (notably `tz_localize` raising `TypeError` on the
  offset-carrying index texts `to_csv` itself writes).  A missing binding
  is a missing file.  `os.makedirs` and the `subdir` path component are
  not modelled (they do not affect any claim).
* When no candidate chunk file exists, `get`'s accumulator is still the
  initial `pd.DataFrame()` — an index-less frame with a `RangeIndex` — on
  which `data.resample(...)` (database.py:154) raises `TypeError`
  ("Only valid with DatetimeIndex").  `anyChunk` tracks this condition;
  its agreement with the accumulator is `getLoopN_empty_of_not_anyChunkN`.
* Python exceptions are modelled by `Except PyErr`.
-/

/-- Python exceptions raised by the modelled code paths. -/
inductive PyErr where
  | typeError
  | indexError
  | emptyDataError
  | valueError
  | attributeError
deriving DecidableEq, Repr

/-- One column of a DataFrame: cells as an association list from timestamp
(seconds, UTC) to value; a `NaN` cell is absent from the list. -/
abbrev Series := List (Int × Rat)

/-- Cell lookup in a column (first binding wins, as in a pandas index). -/
def Series.get : Series → Int → Option Rat
  | [], _ => none
  | (t, v) :: rest, ts => if ts = t then some v else Series.get rest ts

/-- Pandas `a.combine_first(b)` on a single shared column: `a`'s cells win, `b`
fills the cells absent from `a` (pandas `DataFrame.combine_first`). -/
def Series.combine (a b : Series) : Series :=
  a ++ b.filter (fun p => (Series.get a p.1).isNone)

/-- Closed-interval row selection, `df.loc[lo:hi]` on one column. -/
def Series.slice (s : Series) (lo hi : Int) : Series :=
  s.filter (fun p => lo ≤ p.1 ∧ p.1 ≤ hi)

/-- Pandas `df.truncate(before=lo)` on one column: drop the rows before `lo`. -/
def Series.truncateBefore (s : Series) (lo : Int) : Series :=
  s.filter (fun p => lo ≤ p.1)

/-- The timestamps of a column. -/
def Series.keys (s : Series) : List Int := s.map (·.1)

/-- A DataFrame up to row/column order: a list of named columns.
`pd.concat(..., axis=1)` can create duplicate column names, so the list
may bind a name twice; lookups return the first binding. -/
structure Table where
  cols : List (String × Series)
deriving DecidableEq, Repr

/-- The empty frame `pd.DataFrame()`. -/
def Table.empty : Table := ⟨[]⟩

/-- Lookup of the first column carrying a name. -/
def lookupCol : List (String × Series) → String → Option Series
  | [], _ => none
  | nc :: rest, c => if nc.1 = c then some nc.2 else lookupCol rest c

/-- Column lookup by name (first binding). -/
def Table.getCol (tb : Table) (c : String) : Option Series :=
  lookupCol tb.cols c

/-- Column-membership test `c in df.columns`. -/
def Table.hasCol (tb : Table) (c : String) : Bool :=
  (tb.getCol c).isSome

/-- The column names of a frame, in order, duplicates retained. -/
def Table.colNames (tb : Table) : List String := tb.cols.map (·.1)

/-- Cell lookup: the value of column `c` at timestamp `ts`, `none` for `NaN`
or a missing row/column. -/
def Table.cell (tb : Table) (c : String) (ts : Int) : Option Rat :=
  (tb.getCol c).bind (fun s => Series.get s ts)

/-- Pandas `df.empty`: a frame with no columns or no (non-`NaN`) rows. -/
def Table.isEmpty (tb : Table) : Bool :=
  tb.cols.all (fun nc => nc.2.isEmpty)

/-- Pandas `a.combine_first(b)` on frames: `a`'s columns, gap-filled from `b`'s
columns of the same name, followed by the columns only `b` has. -/
def Table.combine_first (a b : Table) : Table :=
  ⟨a.cols.map (fun nc => (nc.1,
      match b.getCol nc.1 with
      | some s2 => nc.2.combine s2
      | none => nc.2))
    ++ b.cols.filter (fun nc => !a.hasCol nc.1)⟩

/-- Pandas `df.loc[lo:hi]`: closed-interval row selection. -/
def Table.loc (tb : Table) (lo hi : Int) : Table :=
  ⟨tb.cols.map (fun nc => (nc.1, nc.2.slice lo hi))⟩

/-- Pandas `df.truncate(before=lo)`. -/
def Table.truncateBefore (tb : Table) (lo : Int) : Table :=
  ⟨tb.cols.map (fun nc => (nc.1, nc.2.truncateBefore lo))⟩

/-- The earliest timestamp carrying any cell: the first row of the frame's
sorted index (`df.index[0]` for the frames this code builds). -/
def Table.minTs (tb : Table) : Option Int :=
  (tb.cols.flatMap (fun nc => nc.2.keys)).min?

/-- Pandas `df.head(1)`: the rows at the earliest timestamp (at most one row). -/
def Table.head1 (tb : Table) : Table :=
  match tb.minTs with
  | none => ⟨tb.cols.map (fun nc => (nc.1, []))⟩
  | some t0 => tb.loc t0 t0

/-- The start of the resample bin holding `t`, for bins of width `iv`
seconds whose boundaries sit at `off` seconds past multiples of `iv`
(pandas `resample(str(iv)+'s', base=off)`). -/
def binStart (iv off t : Int) : Int :=
  off + iv * ((t - off).fdiv iv)

/-- Sum the values of a column into its resample bins, labelling each bin
by its start (`resample(..).sum()` on one column, without the zero rows
pandas inserts for empty bins). -/
def Series.resampleSum (s : Series) (iv off : Int) : Series :=
  let bs := (s.map (fun p => binStart iv off p.1)).dedup
  bs.map (fun b =>
    (b, ((s.filter (fun p => binStart iv off p.1 = b)).map (·.2)).sum))

/-- Pandas `df.resample(str(iv)+'s', base=off).sum()`: column-wise bin sums. -/
def Table.resampleSum (tb : Table) (iv off : Int) : Table :=
  ⟨tb.cols.map (fun nc => (nc.1, nc.2.resampleSum iv off))⟩

/-- The configuration of a `CsvDatabase` (database.py:122-134), restricted
to the options the modelled code paths consult.  `interval` is the bucket
width in hours. -/
structure CsvConfig where
  merge : Bool
  interval : Int
  index_column : String
  index_unix : Bool
deriving DecidableEq, Repr

/-! ## Raw chunk-file layer: `_read_file` and the merge-read

The parsing pandas performs is modelled at the level of already-lexed
fields: an index entry in the file is a datetime text without an offset,
a datetime text with an explicit offset, or a plain integer (Unix epoch
milliseconds); observation cells are numerals.  The model covers the
chunk-file layout this code itself writes (`to_csv` puts the index
first); naming a column the file does not have raises the `ValueError`
pandas raises for an invalid `index_col`. -/

/-- The raw form of one index-column entry of a chunk file. -/
inductive IdxRaw where
  | dtNaive (sec : Int)
  | dtAware (sec : Int)
  | unixMs (ms : Int)
deriving DecidableEq, Repr

/-- Whether a raw index entry is an offset-less datetime text. -/
def IdxRaw.isNaive : IdxRaw → Bool
  | .dtNaive _ => true
  | _ => false

/-- A chunk file: the header line (index column first, as `to_csv` writes
it) and one row per line.  `⟨[], []⟩` is a zero-byte file. -/
structure FileContent where
  header : List String
  rows : List (IdxRaw × List Rat)
deriving DecidableEq, Repr

/-- A parsed index entry after `read_csv(..., parse_dates=[..])`: a naive
or timezone-aware timestamp, or an integer left unparsed. -/
inductive IdxVal where
  | naive (sec : Int)
  | aware (sec : Int)
  | ints (ms : Int)
deriving DecidableEq, Repr

/-- The frame `pd.read_csv` returns: index name and entries, observation
column names, and the row values. -/
structure ParsedDF where
  idxName : String
  idx : List IdxVal
  colNames : List String
  rows : List (List Rat)
deriving DecidableEq, Repr

/-- Pandas `df.empty` on a parsed frame. -/
def ParsedDF.isEmpty (df : ParsedDF) : Bool :=
  df.idx.isEmpty || df.colNames.isEmpty

/-- The date parsing `parse_dates` applies to one index entry. -/
def parseDate : IdxRaw → IdxVal
  | .dtNaive s => .naive s
  | .dtAware s => .aware s
  | .unixMs n => .ints n

/-- Parsing `pd.read_csv(path, sep=.., decimal=.., index_col=c, parse_dates=[c])`
on a chunk file: a zero-byte file raises `EmptyDataError`; an `index_col`
the file does not carry raises `ValueError`. -/
def read_csv (f : FileContent) (index_col : String) :
    Except PyErr ParsedDF :=
  match f.header with
  | [] => .error .emptyDataError
  | c0 :: rest =>
    if c0 = index_col then
      .ok ⟨index_col, f.rows.map (fun r => parseDate r.1), rest,
        f.rows.map (·.2)⟩
    else .error .valueError

/-- Conversion `pd.to_datetime(index, unit='ms')`: converts an integer index entry
to a (naive) timestamp; datetime entries pass through. -/
def toDatetimeMs : IdxVal → IdxVal
  | .ints n => .naive (n.ediv 1000)
  | v => v

/-- The check `index.tzinfo is None or index.tzinfo.utcoffset(index) is None`
(database.py:227); accessing `tzinfo` on a non-datetime index raises. -/
def tzinfoIsNone : List IdxVal → Except PyErr Bool
  | [] => .ok true
  | v :: _ =>
    match v with
    | .naive _ => .ok true
    | .aware _ => .ok false
    | .ints _ => .error .attributeError

/-- Localization `index.tz_localize(tz.utc)`: attaches UTC to a naive index;
raises
`TypeError` on an already-aware or non-datetime index. -/
def localizeUtc (idx : List IdxVal) : Except PyErr (List IdxVal) :=
  idx.mapM (fun v =>
    match v with
    | .naive s => Except.ok (IdxVal.aware s)
    | .aware _ => Except.error PyErr.typeError
    | .ints _ => Except.error PyErr.typeError)

/-- The codec read `CsvDatabase._read_file` (database.py:194-232): parse with
the
configured `index_column`, convert a Unix-milliseconds index when
`index_unix` is set, localize a still-naive index to UTC, and name the
index `time`. -/
def CsvDatabase.readFile (cfg : CsvConfig) (f : FileContent) :
    Except PyErr ParsedDF := do
  let csv ← read_csv f cfg.index_column
  let csv ←
    if !csv.isEmpty then do
      let csv := if cfg.index_unix then
          { csv with idx := csv.idx.map toDatetimeMs }
        else csv
      let naive ← tzinfoIsNone csv.idx
      if naive then do
        let idx2 ← localizeUtc csv.idx
        pure { csv with idx := idx2 }
      else pure csv
    else pure csv
  pure { csv with idxName := "time" }

/-- The merge-read of `CsvDatabase._write_file` (database.py:183-185):
`pd.read_csv(path, .., index_col='time', parse_dates=['time'])` — the
index column name hardcoded to `time`, no Unix-milliseconds conversion —
followed by an unconditional `tz_localize(tz.utc)` on non-empty content. -/
def CsvDatabase.writeFileReadExisting ( _cfg : CsvConfig)
    (f : FileContent) : Except PyErr ParsedDF := do
  let csv ← read_csv f "time"
  if !csv.isEmpty then do
    let idx2 ← localizeUtc csv.idx
    pure { csv with idx := idx2 }
  else pure csv

/-- The seconds value carried by a raw index entry. -/
def IdxRaw.sec : IdxRaw → Int
  | .dtNaive s => s
  | .dtAware s => s
  | .unixMs n => n

/-- Whether a raw index entry is an offset-carrying datetime text, as
`to_csv` renders every UTC-aware index this code writes. -/
def IdxRaw.isAware : IdxRaw → Bool
  | .dtAware _ => true
  | _ => false

/-- The timestamp of a parsed index entry. -/
def IdxVal.sec : IdxVal → Int
  | .naive s => s
  | .aware s => s
  | .ints n => n

/-- Column `j` of a parsed frame as a cell list. -/
def colSeries (idx : List IdxVal) (rows : List (List Rat)) (j : Nat) :
    Series :=
  (idx.zip rows).filterMap
    (fun p => (p.2.get? j).map (fun v => (p.1.sec, v)))

/-- The cell-map view of a parsed, timestamp-indexed frame, for the
frame-level operations (`combine_first`, `concat`) the merge applies to
it. -/
def ParsedDF.toTable (df : ParsedDF) : Table :=
  ⟨df.colNames.enum.map (fun ic => (ic.2, colSeries df.idx df.rows ic.1))⟩

/-- The filesystem as the writer sees it: raw chunk-file content by file
name — `_write_file`'s merge re-reads the destination file from its
bytes, so its failures (a `ParseError`, the `tz_localize` raise) are part
of the write path. -/
abbrev FsRaw := List (String × FileContent)

/-- File lookup on the raw store (`os.path.isfile` plus the read). -/
def fsRawLookup : FsRaw → String → Option FileContent
  | [], _ => none
  | e :: rest, p => if e.1 = p then some e.2 else fsRawLookup rest p

/-- The filesystem: parsed table content by file name. -/
abbrev Fs := List (String × Table)

/-- File existence and lookup, `os.path.exists` plus the read. -/
def fsLookup : Fs → String → Option Table
  | [], _ => none
  | e :: rest, p => if e.1 = p then some e.2 else fsLookup rest p

/-- The chunk file name `time.strftime(self.format) + '.csv'` of a
bucket-start candidate, for the configured naming pattern `fmt`. -/
def pathOf (fmt : Int → String) (t : Int) : String := fmt t ++ ".csv"

/-- The `while time <= end` chunk-loading loop of `CsvDatabase.get`
(database.py:146-150), recursing on an iteration budget (see the header
note): each existing candidate file is combined into the accumulator with
`data.combine_first(chunk)`, missing candidates are skipped, and `time`
advances by `step = 3600 * interval` seconds. -/
def getLoopN (fs : Fs) (fmt : Int → String) (step : Int) :
    Nat → Int → Int → Table → Table
  | 0, _, _, acc => acc
  | n + 1, time, endT, acc =>
    if time ≤ endT then
      getLoopN fs fmt step n (time + step) endT
        (match fsLookup fs (pathOf fmt time) with
          | some tb => acc.combine_first tb
          | none => acc)
    else acc

/-- The chunk-loading loop with its iteration budget filled in. -/
def getLoop (fs : Fs) (fmt : Int → String) (step time endT : Int)
    (acc : Table) : Table :=
  getLoopN fs fmt step (endT + 1 - time).toNat time endT acc

/-- The bucket-start candidates the loop visits, under the same iteration
budget: `time, time + step, ...` while the candidate is `≤ endT`. -/
def candidatesN (step : Int) : Nat → Int → Int → List Int
  | 0, _, _ => []
  | n + 1, time, endT =>
    if time ≤ endT then time :: candidatesN step n (time + step) endT
    else []

/-- The bucket-start candidates of a query, budget filled in. -/
def candidates (step time endT : Int) : List Int :=
  candidatesN step (endT + 1 - time).toNat time endT

/-- Whether any candidate chunk file exists along the loop (same budget):
while this is `false` the accumulator is still the initial
`pd.DataFrame()` — an index-less frame with a `RangeIndex`, on which
`resample` raises `TypeError`. -/
def anyChunkN (fs : Fs) (fmt : Int → String) (step : Int) :
    Nat → Int → Int → Bool
  | 0, _, _ => false
  | n + 1, time, endT =>
    if time ≤ endT then
      (fsLookup fs (pathOf fmt time)).isSome
        || anyChunkN fs fmt step n (time + step) endT
    else false

/-- Whether any candidate chunk file exists, budget filled in. -/
def anyChunk (fs : Fs) (fmt : Int → String) (step time endT : Int) : Bool :=
  anyChunkN fs fmt step (endT + 1 - time).toNat time endT

/-- Midnight of the day holding `s`, i.e.
`start.replace(hour=0, minute=0, second=0, microsecond=0)` for
the day holding `s`. -/
def midnight (s : Int) : Int := s - s.emod 86400

/-- The resample phase
`(start - start.replace(hour=0, ...)).total_seconds() % interval`
(database.py:153): the resample phase. -/
def resampleOffset (s iv : Int) : Int := (s - midnight s).emod iv

/-- The range read `CsvDatabase.get` (database.py:139-163).  `start`, `endA` and
`interval` are `None`-able; arithmetic or comparison on `None` raises
`TypeError` exactly where the Python would.  When no candidate chunk file
exists the accumulator is still the initial `pd.DataFrame()` with a
`RangeIndex`, and `data.resample(...)` (database.py:154) raises
`TypeError` ("Only valid with DatetimeIndex"); `anyChunk` tracks exactly
this condition (see `getLoopN_empty_of_not_anyChunkN`). -/
def CsvDatabase.get (cfg : CsvConfig) (fmt : Int → String) (fs : Fs)
    (start endA interval : Option Int) : Except PyErr Table :=
  let end0 := match endA with
    | none => start
    | some e => some e
  match end0 with
  | none => .error .typeError
  | some e0 =>
    let e1 := e0 + 3600 * cfg.interval - 1
    match start with
    | none => .error .typeError
    | some s =>
      let data := getLoop fs fmt (3600 * cfg.interval) s e1 Table.empty
      let p : Except PyErr (Table × Int) :=
        match interval with
        | some iv =>
          if 900 < iv then
            if anyChunk fs fmt (3600 * cfg.interval) s e1 then
              .ok (data.resampleSum iv (resampleOffset s iv), e1 + iv)
            else .error .typeError
          else .ok (data, e1)
        | none => .ok (data, e1)
      match p with
      | .error err => .error err
      | .ok de =>
        if s > de.2 then .ok ((de.1.truncateBefore s).head1)
        else .ok (de.1.loc s de.2)

/-- The merge-write `CsvDatabase._write_file` (database.py:178-192): the
table to be stored at `path`, given the raw content `existing` of a
pre-existing destination file (`none` when no file exists).  The leading
`tz_convert(tz.utc).astype(float)` and index renaming on `data` are
identities here (see the header note).  When merge is on and the file
exists, the file is re-read with `index_col='time'` (database.py:183) and
its index localized unconditionally (line 185) — on the offset-carrying
index texts this code itself writes, that `tz_localize` raises
`TypeError` before any combining happens; only then is the parsed frame
combined (`combine_first` when every new column pre-exists, column-wise
`concat` otherwise, lines 187-190). -/
def CsvDatabase.writeFile (cfg : CsvConfig) (existing : Option FileContent)
    (data : Table) : Except PyErr Table :=
  if cfg.merge then
    match existing with
    | some file => do
      let csv0 ← read_csv file "time"
      if !csv0.isEmpty then do
        let idx2 ← localizeUtc csv0.idx
        let csv := ParsedDF.toTable { csv0 with idx := idx2 }
        if data.colNames.all (fun n => csv.hasCol n) then
          pure (data.combine_first csv)
        else pure ⟨csv.cols ++ data.cols⟩
      else pure data
    | none => pure data
  else pure data

/-- The writer `CsvDatabase.persist` (database.py:165-176): returns the
(file name, stored table) pair of the write it performs, `none` for a
no-op, or the exception it (or the delegated `_write_file`) raises. -/
def CsvDatabase.persist (cfg : CsvConfig) (fmt : Int → String) (fs : FsRaw)
    (data : Option Table) (time : Option Int) (file : Option String) :
    Except PyErr (Option (String × Table)) :=
  match data with
  | none => .ok none
  | some d =>
    let tE : Except PyErr Int :=
      match time with
      | some t => .ok t
      | none =>
        match d.minTs with
        | some t => .ok t
        | none => .error .indexError
    match tE with
    | .error e => .error e
    | .ok t =>
      let f := match file with
        | some f => f
        | none => pathOf fmt t
      match CsvDatabase.writeFile cfg (fsRawLookup fs f) d with
      | .error e => .error e
      | .ok tb => .ok (some (f, tb))

/-! ## Cell-level characterization lemmas -/

theorem Series.get_append (a b : Series) (ts : Int) :
    Series.get (a ++ b) ts = (Series.get a ts).orElse (fun _ => Series.get b ts) := by
  induction a with
  | nil => rfl
  | cons hd tl ih =>
    obtain ⟨t, v⟩ := hd
    simp only [List.cons_append, Series.get]
    by_cases h : ts = t
    · simp [h, Option.orElse]
    · simp [h, ih]

theorem Series.get_filterKey (q : Int → Bool) (s : Series) (ts : Int) :
    Series.get (s.filter (fun p => q p.1)) ts
      = if q ts then Series.get s ts else none := by
  induction s with
  | nil => simp [Series.get]
  | cons hd tl ih =>
    obtain ⟨t, v⟩ := hd
    by_cases hq : q t
    · rw [List.filter_cons_of_pos (by simpa using hq)]
      by_cases h : ts = t
      · subst h
        simp [Series.get, hq]
      · simp [Series.get, h, ih]
    · rw [List.filter_cons_of_neg (by simpa using hq)]
      by_cases h : ts = t
      · subst h
        simp [Series.get, hq, ih]
      · simp [Series.get, h, ih]

theorem Series.get_combine (a b : Series) (ts : Int) :
    Series.get (a.combine b) ts
      = (Series.get a ts).orElse (fun _ => Series.get b ts) := by
  unfold Series.combine
  rw [Series.get_append]
  have hf := Series.get_filterKey (fun k => (Series.get a k).isNone) b ts
  simp only at hf
  rw [hf]
  cases ha : Series.get a ts <;> simp [Option.orElse, ha]

theorem Series.get_slice_eq (s : Series) (lo hi ts : Int) :
    Series.get (s.slice lo hi) ts
      = if lo ≤ ts ∧ ts ≤ hi then Series.get s ts else none := by
  unfold Series.slice
  have hf := Series.get_filterKey (fun k => decide (lo ≤ k ∧ k ≤ hi)) s ts
  simp only [decide_eq_true_eq] at hf
  exact hf

theorem Series.get_truncateBefore_eq (s : Series) (lo ts : Int) :
    Series.get (s.truncateBefore lo) ts
      = if lo ≤ ts then Series.get s ts else none := by
  unfold Series.truncateBefore
  have hf := Series.get_filterKey (fun k => decide (lo ≤ k)) s ts
  simp only [decide_eq_true_eq] at hf
  exact hf

theorem Series.get_ne_none_mem_keys (s : Series) (ts : Int)
    (h : Series.get s ts ≠ none) : ts ∈ s.keys := by
  induction s with
  | nil => simp [Series.get] at h
  | cons hd tl ih =>
    obtain ⟨t, v⟩ := hd
    by_cases he : ts = t
    · simp [Series.keys, he]
    · simp only [Series.get, if_neg he] at h
      simp [Series.keys, Series.keys] at ih ⊢
      exact Or.inr (ih h)

theorem lookupCol_append (A B : List (String × Series)) (c : String) :
    lookupCol (A ++ B) c
      = (lookupCol A c).orElse (fun _ => lookupCol B c) := by
  induction A with
  | nil => rfl
  | cons hd tl ih =>
    by_cases h : hd.1 = c
    · simp [lookupCol, h, Option.orElse]
    · simp [lookupCol, h, ih]

theorem lookupCol_map_name (g : String → Series → Series)
    (l : List (String × Series)) (c : String) :
    lookupCol (l.map (fun nc => (nc.1, g nc.1 nc.2))) c
      = (lookupCol l c).map (g c) := by
  induction l with
  | nil => rfl
  | cons hd tl ih =>
    obtain ⟨n, s⟩ := hd
    by_cases h : n = c
    · subst h
      simp [lookupCol]
    · simp [lookupCol, h, ih]

theorem lookupCol_filterName (q : String → Bool)
    (l : List (String × Series)) (c : String) :
    lookupCol (l.filter (fun nc => q nc.1)) c
      = if q c then lookupCol l c else none := by
  induction l with
  | nil => simp [lookupCol]
  | cons hd tl ih =>
    obtain ⟨n, s⟩ := hd
    by_cases hq : q n
    · rw [List.filter_cons_of_pos (by simpa using hq)]
      by_cases h : n = c
      · subst h
        simp [lookupCol, hq]
      · simp [lookupCol, h, ih]
    · rw [List.filter_cons_of_neg (by simpa using hq)]
      by_cases h : n = c
      · subst h
        simp [lookupCol, hq, ih]
      · simp [lookupCol, h, ih]

theorem Table.cell_combine_first (a b : Table) (c : String) (ts : Int) :
    (a.combine_first b).cell c ts
      = (a.cell c ts).orElse (fun _ => b.cell c ts) := by
  show Table.cell ⟨_ ++ _⟩ c ts = _
  unfold Table.cell Table.getCol
  rw [lookupCol_append,
    lookupCol_map_name (fun n s =>
      match lookupCol b.cols n with
      | some s2 => s.combine s2
      | none => s),
    lookupCol_filterName (fun n => !a.hasCol n)]
  cases ha : lookupCol a.cols c with
  | some s =>
    have hh : a.hasCol c = true := by
      simp [Table.hasCol, Table.getCol, ha]
    cases hb : lookupCol b.cols c with
    | some s2 =>
      simp only [ha, hb, Option.map_some', Option.orElse, Option.bind,
        Series.get_combine]
    | none =>
      simp only [ha, hb, Option.map_some', Option.orElse, Option.bind]
      cases hs : Series.get s ts <;> simp [Option.orElse, hs]
  | none =>
    have hh : a.hasCol c = false := by
      simp [Table.hasCol, Table.getCol, ha]
    simp [ha, hh, Option.orElse]

theorem intList_min?_eq_some_iff (l : List Int) (m : Int) :
    l.min? = some m ↔ m ∈ l ∧ ∀ b ∈ l, m ≤ b :=
  have : Std.Antisymm (fun x1 x2 : Int => x1 ≤ x2) :=
    ⟨fun h h2 => le_antisymm h h2⟩
  List.min?_eq_some_iff (fun x => le_refl x) (fun x y => min_choice x y)
    (fun _ _ _ => le_min_iff)

theorem Table.cell_loc (tb : Table) (lo hi : Int) (c : String) (ts : Int) :
    (tb.loc lo hi).cell c ts
      = if lo ≤ ts ∧ ts ≤ hi then tb.cell c ts else none := by
  unfold Table.loc Table.cell Table.getCol
  rw [lookupCol_map_name (fun _ s => s.slice lo hi)]
  cases h : lookupCol tb.cols c with
  | none => simp
  | some s => simp [Series.get_slice_eq]

theorem Table.cell_truncateBefore (tb : Table) (lo : Int) (c : String)
    (ts : Int) :
    (tb.truncateBefore lo).cell c ts
      = if lo ≤ ts then tb.cell c ts else none := by
  unfold Table.truncateBefore Table.cell Table.getCol
  rw [lookupCol_map_name (fun _ s => s.truncateBefore lo)]
  cases h : lookupCol tb.cols c with
  | none => simp
  | some s => simp [Series.get_truncateBefore_eq]

theorem lookupCol_mem (l : List (String × Series)) (c : String) (s : Series)
    (h : lookupCol l c = some s) : (c, s) ∈ l := by
  induction l with
  | nil => simp [lookupCol] at h
  | cons hd tl ih =>
    by_cases he : hd.1 = c
    · simp only [lookupCol, he, if_pos] at h
      obtain ⟨n, s2⟩ := hd
      cases he
      cases h
      exact List.mem_cons_self _ _
    · simp only [lookupCol, he, if_neg, if_false] at h
      exact List.mem_cons_of_mem _ (ih h)

/-- A non-`NaN` cell witnesses its timestamp among the frame's row keys. -/
theorem Table.cell_mem_rowKeys (tb : Table) (c : String) (ts : Int)
    (h : tb.cell c ts ≠ none) :
    ts ∈ tb.cols.flatMap (fun nc => nc.2.keys) := by
  unfold Table.cell Table.getCol at h
  cases hc : lookupCol tb.cols c with
  | none => rw [hc] at h; simp at h
  | some s =>
    rw [hc] at h
    simp only [Option.bind] at h
    have hk := Series.get_ne_none_mem_keys s ts h
    have hm := lookupCol_mem tb.cols c s hc
    exact List.mem_flatMap.mpr ⟨(c, s), hm, hk⟩

/-- If any cell is present, `minTs` exists and bounds its timestamp. -/
theorem Table.minTs_le (tb : Table) (c : String) (ts : Int)
    (h : tb.cell c ts ≠ none) :
    ∃ m, tb.minTs = some m ∧ m ≤ ts := by
  have hmem := tb.cell_mem_rowKeys c ts h
  unfold Table.minTs
  cases hm : (tb.cols.flatMap (fun nc => nc.2.keys)).min? with
  | none =>
    rw [List.min?_eq_none_iff] at hm
    rw [hm] at hmem
    simp at hmem
  | some m =>
    have := (intList_min?_eq_some_iff _ m).mp hm
    exact ⟨m, rfl, this.2 ts hmem⟩

theorem Table.cell_head1_none (tb : Table) (h : tb.minTs = none)
    (c : String) (ts : Int) : (tb.head1).cell c ts = none := by
  unfold Table.head1
  rw [h]
  show Table.cell ⟨_⟩ c ts = none
  unfold Table.cell Table.getCol
  rw [lookupCol_map_name (fun _ _ => ([] : Series))]
  cases lookupCol tb.cols c <;> simp [Series.get]

theorem Table.cell_head1_some (tb : Table) (t0 : Int)
    (h : tb.minTs = some t0) (c : String) (ts : Int) :
    (tb.head1).cell c ts = if ts = t0 then tb.cell c t0 else none := by
  unfold Table.head1
  rw [h, Table.cell_loc]
  by_cases he : ts = t0
  · subst he
    simp
  · have : ¬ (t0 ≤ ts ∧ ts ≤ t0) := by omega
    simp [he, this]

/-! ## Loop and candidate lemmas -/

/-- One combining step of the chunk-loading loop. -/
def loadStep (fs : Fs) (fmt : Int → String) (a : Table) (t : Int) : Table :=
  match fsLookup fs (pathOf fmt t) with
  | some tb => a.combine_first tb
  | none => a

theorem getLoopN_eq_foldl (fs : Fs) (fmt : Int → String) (step : Int)
    (n : Nat) (time endT : Int) (acc : Table) :
    getLoopN fs fmt step n time endT acc
      = (candidatesN step n time endT).foldl (loadStep fs fmt) acc := by
  induction n generalizing time acc with
  | zero => rfl
  | succ n ih =>
    by_cases h : time ≤ endT
    · simp only [getLoopN, candidatesN, h, if_pos, List.foldl_cons, ih]
      rfl
    · simp [getLoopN, candidatesN, h]

theorem getLoopN_nilFs (fmt : Int → String) (step : Int) (n : Nat)
    (time endT : Int) (acc : Table) :
    getLoopN [] fmt step n time endT acc = acc := by
  induction n generalizing time acc with
  | zero => rfl
  | succ n ih =>
    by_cases h : time ≤ endT <;> simp [getLoopN, h, fsLookup, ih]

theorem getLoopN_cell_origin (fs : Fs) (fmt : Int → String) (step : Int) :
    ∀ (n : Nat) (time endT : Int) (acc : Table) (c : String) (ts : Int)
      (v : Rat),
      (getLoopN fs fmt step n time endT acc).cell c ts = some v →
      acc.cell c ts = some v ∨
        ∃ p tb, fsLookup fs p = some tb ∧ tb.cell c ts = some v := by
  intro n
  induction n with
  | zero => intro time endT acc c ts v h; exact Or.inl h
  | succ n ih =>
    intro time endT acc c ts v h
    by_cases hle : time ≤ endT
    · simp only [getLoopN, hle, if_pos] at h
      cases hfs : fsLookup fs (pathOf fmt time) with
      | some tb =>
        rw [hfs] at h
        rcases ih _ _ _ _ _ _ h with hacc | hex
        · rw [Table.cell_combine_first] at hacc
          cases ha : acc.cell c ts with
          | some w =>
            rw [ha] at hacc
            simp [Option.orElse] at hacc
            exact Or.inl (congrArg some hacc)
          | none =>
            rw [ha] at hacc
            simp [Option.orElse] at hacc
            exact Or.inr ⟨pathOf fmt time, tb, hfs, hacc⟩
        · exact Or.inr hex
      | none =>
        rw [hfs] at h
        exact ih _ _ _ _ _ _ h
    · simp only [getLoopN, hle, if_neg, if_false] at h
      exact Or.inl h

theorem mem_candidatesN (step : Int) (hstep : 0 < step) :
    ∀ (n : Nat) (time endT t : Int), (endT + 1 - time).toNat ≤ n →
      (t ∈ candidatesN step n time endT ↔
        ∃ k : Nat, t = time + k * step ∧ t ≤ endT) := by
  intro n
  induction n with
  | zero =>
    intro time endT t hb
    constructor
    · intro hm; simp [candidatesN] at hm
    · rintro ⟨k, rfl, hle⟩
      have hk : (0 : Int) ≤ (k : Int) * step :=
        mul_nonneg (Int.natCast_nonneg k) hstep.le
      omega
  | succ n ih =>
    intro time endT t hb
    by_cases h : time ≤ endT
    · simp only [candidatesN, h, if_pos, List.mem_cons]
      constructor
      · rintro (rfl | hm)
        · exact ⟨0, by simp, h⟩
        · obtain ⟨k, rfl, hle⟩ := (ih (time + step) endT t (by omega)).mp hm
          exact ⟨k + 1, by push_cast; ring, hle⟩
      · rintro ⟨k, rfl, hle⟩
        cases k with
        | zero => exact Or.inl (by simp)
        | succ k =>
          refine Or.inr ((ih (time + step) endT _ (by omega)).mpr ?_)
          exact ⟨k, by push_cast; ring, hle⟩
    · simp only [candidatesN, h, if_neg, if_false]
      constructor
      · intro hm; simp at hm
      · rintro ⟨k, rfl, hle⟩
        have hk : (0 : Int) ≤ (k : Int) * step :=
          mul_nonneg (Int.natCast_nonneg k) hstep.le
        omega

/-! ## Resample lemmas -/

theorem binStart_emod (iv off t : Int) :
    (binStart iv off t).emod iv = off.emod iv := by
  unfold binStart
  exact Int.add_mul_emod_self_left (a := off) (b := iv) (c := (t - off).fdiv iv)

theorem resampleOffset_eq (s iv : Int) :
    resampleOffset s iv = (s.emod 86400).emod iv := by
  unfold resampleOffset midnight
  congr 1
  ring

theorem resampleOffset_emod (s iv : Int) :
    (resampleOffset s iv).emod iv = resampleOffset s iv := by
  unfold resampleOffset
  exact Int.emod_emod_of_dvd _ dvd_rfl

theorem Series.keys_resampleSum (s : Series) (iv off : Int) :
    (s.resampleSum iv off).keys
      = (s.map (fun p => binStart iv off p.1)).dedup := by
  unfold Series.resampleSum Series.keys
  simp [Function.comp_def]

theorem Table.cell_resampleSum_key (tb : Table) (iv off : Int) (c : String)
    (ts : Int) (h : (tb.resampleSum iv off).cell c ts ≠ none) :
    ∃ t2, ts = binStart iv off t2 := by
  unfold Table.resampleSum Table.cell Table.getCol at h
  rw [lookupCol_map_name (fun _ s => s.resampleSum iv off)] at h
  cases hc : lookupCol tb.cols c with
  | none => rw [hc] at h; simp at h
  | some s =>
    rw [hc] at h
    simp only [Option.map_some', Option.bind] at h
    have hk := Series.get_ne_none_mem_keys _ _ h
    rw [Series.keys_resampleSum] at hk
    obtain ⟨p, hp, hrfl⟩ := List.mem_map.mp (List.mem_dedup.mp hk)
    exact ⟨p.1, hrfl.symm⟩

theorem Table.cell_head1_ne_none (tb : Table) (c : String) (ts : Int)
    (h : (tb.head1).cell c ts ≠ none) : tb.cell c ts ≠ none := by
  cases hm : tb.minTs with
  | none => exact absurd (Table.cell_head1_none tb hm c ts) h
  | some t0 =>
    rw [Table.cell_head1_some tb t0 hm] at h
    by_cases he : ts = t0
    · subst he
      simpa using h
    · rw [if_neg he] at h
      exact absurd rfl h

/-! ## Branch-dispatch lemmas for `CsvDatabase.get` -/

theorem get_eq_loc (cfg : CsvConfig) (fmt : Int → String) (fs : Fs)
    (s e : Int) (h : s ≤ e + 3600 * cfg.interval - 1) :
    CsvDatabase.get cfg fmt fs (some s) (some e) none
      = .ok ((getLoop fs fmt (3600 * cfg.interval) s
          (e + 3600 * cfg.interval - 1) Table.empty).loc s
          (e + 3600 * cfg.interval - 1)) := by
  unfold CsvDatabase.get
  simp only
  rw [if_neg (not_lt.mpr h)]

theorem get_eq_head1 (cfg : CsvConfig) (fmt : Int → String) (fs : Fs)
    (s e : Int) (h : e + 3600 * cfg.interval - 1 < s) :
    CsvDatabase.get cfg fmt fs (some s) (some e) none
      = .ok (((getLoop fs fmt (3600 * cfg.interval) s
          (e + 3600 * cfg.interval - 1) Table.empty).truncateBefore
            s).head1) := by
  unfold CsvDatabase.get
  simp only
  rw [if_pos h]

theorem get_resample_eq_loc (cfg : CsvConfig) (fmt : Int → String) (fs : Fs)
    (s e iv : Int) (hiv : 900 < iv)
    (hany : anyChunk fs fmt (3600 * cfg.interval) s
      (e + 3600 * cfg.interval - 1) = true)
    (h : s ≤ e + 3600 * cfg.interval - 1 + iv) :
    CsvDatabase.get cfg fmt fs (some s) (some e) (some iv)
      = .ok (((getLoop fs fmt (3600 * cfg.interval) s
          (e + 3600 * cfg.interval - 1) Table.empty).resampleSum iv
            (resampleOffset s iv)).loc s
          (e + 3600 * cfg.interval - 1 + iv)) := by
  unfold CsvDatabase.get
  simp only
  rw [if_pos hiv, if_pos hany]
  simp only
  rw [if_neg (not_lt.mpr h)]

theorem get_resample_eq_head1 (cfg : CsvConfig) (fmt : Int → String)
    (fs : Fs) (s e iv : Int) (hiv : 900 < iv)
    (hany : anyChunk fs fmt (3600 * cfg.interval) s
      (e + 3600 * cfg.interval - 1) = true)
    (h : e + 3600 * cfg.interval - 1 + iv < s) :
    CsvDatabase.get cfg fmt fs (some s) (some e) (some iv)
      = .ok ((((getLoop fs fmt (3600 * cfg.interval) s
          (e + 3600 * cfg.interval - 1) Table.empty).resampleSum iv
            (resampleOffset s iv)).truncateBefore s).head1) := by
  unfold CsvDatabase.get
  simp only
  rw [if_pos hiv, if_pos hany]
  simp only
  rw [if_pos h]

theorem get_resample_typeError (cfg : CsvConfig) (fmt : Int → String)
    (fs : Fs) (s e iv : Int) (hiv : 900 < iv)
    (hany : anyChunk fs fmt (3600 * cfg.interval) s
      (e + 3600 * cfg.interval - 1) = false) :
    CsvDatabase.get cfg fmt fs (some s) (some e) (some iv)
      = .error .typeError := by
  unfold CsvDatabase.get
  simp only
  rw [if_pos hiv, if_neg (by simp [hany])]

/-! ## Merge-read and accumulator-emptiness lemmas -/

theorem localizeUtc_aware_head (sec : Int) (tl : List IdxVal) :
    localizeUtc (IdxVal.aware sec :: tl) = .error .typeError := by
  unfold localizeUtc
  rw [List.mapM_cons]
  simp [Bind.bind, Except.bind]

theorem localizeUtc_naiveRows (rows : List (IdxRaw × List Rat))
    (h : rows.all (fun r => r.1.isNaive) = true) :
    localizeUtc (rows.map (fun r => parseDate r.1))
      = .ok (rows.map (fun r => IdxVal.aware r.1.sec)) := by
  induction rows with
  | nil => rfl
  | cons r tl ih =>
    obtain ⟨ri, rv⟩ := r
    simp only [List.all_cons, Bool.and_eq_true] at h
    obtain ⟨h1, h2⟩ := h
    cases ri with
    | dtNaive sec =>
      have ih2 := ih h2
      unfold localizeUtc at ih2 ⊢
      simp only [List.map_cons]
      rw [List.mapM_cons, ih2]
      rfl
    | dtAware sec => simp [IdxRaw.isNaive] at h1
    | unixMs n => simp [IdxRaw.isNaive] at h1

/-- While no candidate chunk file exists, the accumulator is still the
initial `pd.DataFrame()`: `anyChunk` is exactly the condition under
which `data.resample` has a time index to work on. -/
theorem getLoopN_empty_of_not_anyChunkN (fs : Fs) (fmt : Int → String)
    (step : Int) :
    ∀ (n : Nat) (time endT : Int),
      anyChunkN fs fmt step n time endT = false →
      getLoopN fs fmt step n time endT Table.empty = Table.empty := by
  intro n
  induction n with
  | zero => intro time endT _; rfl
  | succ n ih =>
    intro time endT h
    by_cases hle : time ≤ endT
    · simp only [anyChunkN, hle, if_pos, Bool.or_eq_false_iff] at h
      obtain ⟨h1, h2⟩ := h
      simp only [getLoopN, hle, if_pos]
      cases hfs : fsLookup fs (pathOf fmt time) with
      | some tb => rw [hfs] at h1; simp at h1
      | none => exact ih _ _ h2
    · simp only [getLoopN, hle, if_neg, if_false]

theorem get_no_resample (cfg : CsvConfig) (fmt : Int → String) (fs : Fs)
    (s e iv : Int) (hiv : iv ≤ 900) :
    CsvDatabase.get cfg fmt fs (some s) (some e) (some iv)
      = CsvDatabase.get cfg fmt fs (some s) (some e) none := by
  unfold CsvDatabase.get
  simp only
  rw [if_neg (not_lt.mpr hiv)]

/-! ## Concrete fixtures for counterexamples and witnesses -/

/-- A default configuration: no merge, 24-hour buckets, index column
`time`, no unix-epoch index. -/
def cfgEx : CsvConfig := ⟨false, 24, "time", false⟩

/-- A concrete naming pattern: the bucket start rendered in decimal. -/
def fmtEx : Int → String := fun t => toString t

/-- Fixture: one column `x` valued 1 at the epoch. -/
def tblA1 : Table := ⟨[("x", [(0, 1)])]⟩

/-- Fixture: columns `x` (valued 2) and `y` (valued 5) at the epoch. -/
def tblB1 : Table := ⟨[("x", [(0, 2)]), ("y", [(0, 5)])]⟩

/-! ## Claim C10 -/

/-- C10: calling `get` with both `start` and `end` omitted always raises
`TypeError` (from `None + timedelta`), for every configuration, naming
pattern, filesystem and `interval` argument — in particular without
consulting the filesystem — so `start` is in effect required. -/
theorem claim10_start_required (cfg : CsvConfig) (fmt : Int → String)
    (fs : Fs) (interval : Option Int) :
    CsvDatabase.get cfg fmt fs none none interval = .error .typeError := rfl

/-! ## Claim C3 -/

/-- C3 counterexample: `persist` of a zero-row table (column `x`, no rows)
with no explicit `time` is not a no-op — `data.index[0]` raises an
`IndexError` — refuting the claim that every empty-or-absent table is
persisted without error. -/
theorem claim3_counterexample :
    CsvDatabase.persist cfgEx fmtEx [] (some ⟨[("x", [])]⟩) none none
      = .error .indexError := rfl

/-- C3 amended: `persist` is a no-op only when the table is `None`; a
table with zero rows raises `IndexError` when no explicit `time` is given,
and is written out (not skipped) when a `time` is given. -/
theorem claim3_amended :
    (∀ cfg fmt fs t f,
      CsvDatabase.persist cfg fmt fs none t f = Except.ok none)
    ∧ (∀ cfg fmt fs d f, Table.minTs d = none →
        CsvDatabase.persist cfg fmt fs (some d) none f
          = .error .indexError)
    ∧ (∀ cfg fmt fs d t,
        CsvDatabase.persist cfg fmt fs (some d) (some t) none
          = Except.map (fun tb => some (pathOf fmt t, tb))
              (CsvDatabase.writeFile cfg (fsRawLookup fs (pathOf fmt t))
                d)) := by
  refine ⟨fun cfg fmt fs t f => rfl, ?_, ?_⟩
  · intro cfg fmt fs d f h
    simp only [CsvDatabase.persist, h]
  · intro cfg fmt fs d t
    simp only [CsvDatabase.persist]
    cases hw : CsvDatabase.writeFile cfg (fsRawLookup fs (pathOf fmt t)) d
      <;> simp [Except.map, hw]

/-- C3 witness: the amended theorem applied to the zero-row table. -/
theorem claim3_witness :
    Table.minTs ⟨[("x", [])]⟩ = none
    ∧ CsvDatabase.persist cfgEx fmtEx [] (some ⟨[("x", [])]⟩) none
        (some "a.csv") = .error .indexError :=
  ⟨rfl, claim3_amended.2.1 cfgEx fmtEx [] ⟨[("x", [])]⟩ (some "a.csv") rfl⟩

/-! ## Claim C1 -/

/-- A merge-enabled configuration. -/
def cfgM : CsvConfig := ⟨true, 24, "time", false⟩

/-- The chunk file `to_csv` writes for `tblA1`: the UTC-aware index
renders with its `+00:00` offset, an offset-carrying datetime text. -/
def fileA1 : FileContent := ⟨["time", "x"], [(.dtAware 0, [1])]⟩

/-- C1 counterexample: write `A` (column `x` = 1) to an empty destination
— stored as-is — then merge-write `B` (columns `x` = 2, `y` = 5) onto the
file `to_csv` produced for `A`.  That file's index texts carry `+00:00`
offsets, so the merge-read parses a timezone-aware index and the
unconditional `tz_localize(tz.utc)` (database.py:185) raises
`TypeError: Already tz-aware` before any combining: the call errors, and
no stored table in which "B's value wins" is ever produced. -/
theorem claim1_counterexample :
    CsvDatabase.writeFile cfgM none tblA1 = .ok tblA1
    ∧ tblA1.cell "x" 0 = some 1
    ∧ tblB1.cell "x" 0 = some 2
    ∧ CsvDatabase.writeFile cfgM (some fileA1) tblB1
        = .error .typeError :=
  ⟨rfl, rfl, rfl, rfl⟩

/-- C1 amended: a first write to an empty destination stores the table
as-is; a merge-write onto a non-empty file whose index texts carry
offsets — which is what this code itself writes — raises `TypeError`
from the unconditional `tz_localize`, so the claimed precedence never
materializes for self-written files; only for a file with offset-less
(naive) index texts does the merge execute, and there the claimed
cell precedence (new value wins, old file fills gaps, column union)
holds exactly when every column of the new table already exists in the
file — otherwise the frames are concatenated column-wise with duplicated
shared columns. -/
theorem claim1_amended (cfg : CsvConfig) (f : FileContent)
    (rest : List String) (data : Table) (hm : cfg.merge = true)
    (hhd : f.header = "time" :: rest) (hne : f.rows ≠ [])
    (hcols : rest ≠ []) :
    CsvDatabase.writeFile cfg none data = .ok data
    ∧ (f.rows.all (fun r => r.1.isAware) = true →
        CsvDatabase.writeFile cfg (some f) data = .error .typeError)
    ∧ (f.rows.all (fun r => r.1.isNaive) = true →
        (data.colNames.all (fun n =>
          (ParsedDF.toTable ⟨"time",
            f.rows.map (fun r => IdxVal.aware r.1.sec), rest,
            f.rows.map (fun r => r.2)⟩).hasCol n)) = true →
        ∃ C, CsvDatabase.writeFile cfg (some f) data = .ok C
          ∧ ∀ c ts, C.cell c ts
              = (data.cell c ts).orElse (fun _ =>
                (ParsedDF.toTable ⟨"time",
                  f.rows.map (fun r => IdxVal.aware r.1.sec), rest,
                  f.rows.map (fun r => r.2)⟩).cell c ts)) := by
  obtain ⟨hdr, rows⟩ := f
  simp only at hhd hne ⊢
  subst hhd
  refine ⟨by unfold CsvDatabase.writeFile; split <;> rfl, ?_, ?_⟩
  · intro hAw
    cases rows with
    | nil => exact absurd rfl hne
    | cons r0 rtl =>
      obtain ⟨ri, rv⟩ := r0
      simp only [List.all_cons, Bool.and_eq_true] at hAw
      obtain ⟨hA1, _⟩ := hAw
      cases ri with
      | dtAware sec =>
        cases rest with
        | nil => exact absurd rfl hcols
        | cons cn ctl =>
          have hcond : (!(ParsedDF.isEmpty ⟨"time",
              (((IdxRaw.dtAware sec, rv) :: rtl).map
                (fun r => parseDate r.1)), cn :: ctl,
              (((IdxRaw.dtAware sec, rv) :: rtl).map (fun r => r.2))⟩))
              = true := by
            simp [ParsedDF.isEmpty]
          simp only [CsvDatabase.writeFile, hm, if_true, read_csv,
            Bind.bind, Except.bind]
          rw [if_pos hcond]
          rw [show ((IdxRaw.dtAware sec, rv) :: rtl).map
              (fun r => parseDate r.1)
            = IdxVal.aware sec :: rtl.map (fun r => parseDate r.1)
            from rfl]
          rw [localizeUtc_aware_head]
      | dtNaive sec => simp [IdxRaw.isAware] at hA1
      | unixMs n => simp [IdxRaw.isAware] at hA1
  · intro hNv hsub
    cases rows with
    | nil => exact absurd rfl hne
    | cons r0 rtl =>
      cases rest with
      | nil => exact absurd rfl hcols
      | cons cn ctl =>
        refine ⟨data.combine_first (ParsedDF.toTable ⟨"time",
          ((r0 :: rtl).map (fun r => IdxVal.aware r.1.sec)), cn :: ctl,
          (r0 :: rtl).map (fun r => r.2)⟩), ?_, ?_⟩
        · have hcond : (!(ParsedDF.isEmpty ⟨"time",
              ((r0 :: rtl).map (fun r => parseDate r.1)), cn :: ctl,
              ((r0 :: rtl).map (fun r => r.2))⟩)) = true := by
            simp [ParsedDF.isEmpty]
          simp only [CsvDatabase.writeFile, hm, if_true, read_csv,
            Bind.bind, Except.bind]
          rw [if_pos hcond, localizeUtc_naiveRows _ hNv]
          simp only [Bind.bind, Except.bind]
          rw [if_pos hsub]
          rfl
        · intro c ts
          exact Table.cell_combine_first _ _ _ _

/-- C1 witness: the amended TypeError behaviour at the concrete
self-written file. -/
theorem claim1_witness :
    CsvConfig.merge cfgM = true
    ∧ FileContent.header fileA1 = "time" :: ["x"]
    ∧ FileContent.rows fileA1 ≠ []
    ∧ (["x"] : List String) ≠ []
    ∧ (FileContent.rows fileA1).all (fun r => r.1.isAware) = true
    ∧ CsvDatabase.writeFile cfgM (some fileA1) tblA1
        = .error .typeError :=
  ⟨rfl, rfl, by decide, by decide, rfl,
    (claim1_amended cfgM fileA1 ["x"] tblA1 rfl rfl (by decide)
      (by decide)).2.1 rfl⟩

/-! ## Claim C2 -/

/-- C2 counterexample: with an explicit caller-supplied `end = 0` equal to
`start = 0` and a chunk holding a row at timestamp 3600, `get` returns
that row — timestamp 3600 is strictly greater than the caller's `end` —
because `end += timedelta(hours=interval) - timedelta(seconds=1)`
(database.py:143) is applied unconditionally, not only when `end` is
omitted. -/
theorem claim2_counterexample :
    CsvDatabase.get cfgEx fmtEx [("0.csv", ⟨[("x", [(0, 1), (3600, 2)])]⟩)]
        (some 0) (some 0) none
      = .ok ⟨[("x", [(0, 1), (3600, 2)])]⟩
    ∧ Table.cell ⟨[("x", [(0, 1), (3600, 2)])]⟩ "x" 3600 = some 2
    ∧ ((0 : Int) < 3600) :=
  ⟨rfl, rfl, by decide⟩

/-- C2 amended: the `bucket_width - 1 second` end-extension is applied
unconditionally, so with an explicit caller `end` the returned table is
the closed slice `[start, end + bucket_width - 1s]` of the accumulated
table (when `start` does not exceed that extended end and no resampling
is requested); rows later than the caller's `end` but within the extended
end are therefore returned. -/
theorem claim2_amended (cfg : CsvConfig) (fmt : Int → String) (fs : Fs)
    (s e : Int) (h : s ≤ e + 3600 * cfg.interval - 1) (c : String)
    (ts : Int) :
    ∃ R, CsvDatabase.get cfg fmt fs (some s) (some e) none = .ok R
      ∧ R.cell c ts
          = if s ≤ ts ∧ ts ≤ e + 3600 * cfg.interval - 1
            then (getLoop fs fmt (3600 * cfg.interval) s
              (e + 3600 * cfg.interval - 1) Table.empty).cell c ts
            else none :=
  ⟨_, get_eq_loc cfg fmt fs s e h, Table.cell_loc _ _ _ _ _⟩

/-- C2 witness: the amended slice equation at a concrete query. -/
theorem claim2_witness :
    ((0 : Int) ≤ 0 + 3600 * (24 : Int) - 1)
    ∧ ∃ R, CsvDatabase.get cfgEx fmtEx [] (some 0) (some 0) none = .ok R
        ∧ R.cell "x" 5
            = if (0 : Int) ≤ 5 ∧ (5 : Int) ≤ 0 + 3600 * (24 : Int) - 1
              then (getLoop [] fmtEx (3600 * 24) 0 (0 + 3600 * 24 - 1)
                Table.empty).cell "x" 5
              else none :=
  ⟨by decide, claim2_amended cfgEx fmtEx [] 0 0 (by decide) "x" 5⟩

/-! ## Claim C4 -/

/-- C4 counterexample: `start = 7200` is later than the caller's
`end = 3600`, yet the call returns two rows (timestamps 7200 and 10800):
the degenerate-range branch tests `start` against the unconditionally
extended end `3600 + 86400 - 1`, not against the caller's `end`, so this
call takes the ordinary slice branch — refuting "at most one row" for
every backwards range. -/
theorem claim4_counterexample :
    CsvDatabase.get cfgEx fmtEx
        [("7200.csv", ⟨[("x", [(7200, 1), (10800, 2)])]⟩)]
        (some 7200) (some 3600) none
      = .ok ⟨[("x", [(7200, 1), (10800, 2)])]⟩
    ∧ ((3600 : Int) < 7200)
    ∧ Table.cell ⟨[("x", [(7200, 1), (10800, 2)])]⟩ "x" 7200 = some 1
    ∧ Table.cell ⟨[("x", [(7200, 1), (10800, 2)])]⟩ "x" 10800 = some 2 :=
  ⟨rfl, by decide, rfl, rfl⟩

/-- C4 amended: the at-most-one-row truncate-then-head behaviour applies
exactly when `start` exceeds the *extended* end
(`end + bucket_width - 1s`); in that branch the call is not an error, at
most one row (one timestamp) is returned, and each returned cell is the
corresponding cell of the accumulated table at the earliest accumulated
timestamp at or after `start`. -/
theorem claim4_amended (cfg : CsvConfig) (fmt : Int → String) (fs : Fs)
    (s e : Int) (h : e + 3600 * cfg.interval - 1 < s) :
    ∃ R, CsvDatabase.get cfg fmt fs (some s) (some e) none = .ok R
      ∧ (∀ c1 t1 c2 t2, R.cell c1 t1 ≠ none → R.cell c2 t2 ≠ none →
          t1 = t2)
      ∧ (∀ c t, R.cell c t ≠ none →
          s ≤ t
          ∧ R.cell c t = (getLoop fs fmt (3600 * cfg.interval) s
              (e + 3600 * cfg.interval - 1) Table.empty).cell c t
          ∧ (∀ c2 t2,
              (getLoop fs fmt (3600 * cfg.interval) s
                  (e + 3600 * cfg.interval - 1) Table.empty).cell c2 t2
                ≠ none →
              s ≤ t2 → t ≤ t2)) := by
  refine ⟨_, get_eq_head1 cfg fmt fs s e h, ?_, ?_⟩
  · intro c1 t1 c2 t2 h1 h2
    cases hm : ((getLoop fs fmt (3600 * cfg.interval) s
        (e + 3600 * cfg.interval - 1) Table.empty).truncateBefore
          s).minTs with
    | none => exact absurd (Table.cell_head1_none _ hm c1 t1) h1
    | some t0 =>
      rw [Table.cell_head1_some _ t0 hm] at h1 h2
      by_cases he1 : t1 = t0
      · by_cases he2 : t2 = t0
        · rw [he1, he2]
        · rw [if_neg he2] at h2
          exact absurd rfl h2
      · rw [if_neg he1] at h1
        exact absurd rfl h1
  · intro c t hc
    cases hm : ((getLoop fs fmt (3600 * cfg.interval) s
        (e + 3600 * cfg.interval - 1) Table.empty).truncateBefore
          s).minTs with
    | none => exact absurd (Table.cell_head1_none _ hm c t) hc
    | some t0 =>
      rw [Table.cell_head1_some _ t0 hm] at hc ⊢
      by_cases he : t = t0
      case neg =>
        rw [if_neg he] at hc
        exact absurd rfl hc
      subst he
      rw [if_pos rfl] at hc ⊢
      rw [Table.cell_truncateBefore] at hc ⊢
      by_cases hs : s ≤ t
      case neg =>
        rw [if_neg hs] at hc
        exact absurd rfl hc
      rw [if_pos hs] at hc ⊢
      refine ⟨hs, rfl, ?_⟩
      intro c2 t2 h2 hs2
      have htr : ((getLoop fs fmt (3600 * cfg.interval) s
          (e + 3600 * cfg.interval - 1) Table.empty).truncateBefore
            s).cell c2 t2 ≠ none := by
        rw [Table.cell_truncateBefore, if_pos hs2]
        exact h2
      obtain ⟨m, hm2, hle⟩ := Table.minTs_le _ c2 t2 htr
      rw [hm] at hm2
      cases hm2
      exact hle

/-- C4 witness: the amended degenerate-range behaviour at a concrete
query whose `start` exceeds the extended end. -/
theorem claim4_witness :
    ((0 : Int) + 3600 * (24 : Int) - 1 < 100000)
    ∧ ∃ R, CsvDatabase.get cfgEx fmtEx [] (some 100000) (some 0) none
          = .ok R
        ∧ (∀ c1 t1 c2 t2, R.cell c1 t1 ≠ none → R.cell c2 t2 ≠ none →
            t1 = t2)
        ∧ (∀ c t, R.cell c t ≠ none →
            (100000 : Int) ≤ t
            ∧ R.cell c t = (getLoop [] fmtEx (3600 * 24) 100000
                (0 + 3600 * 24 - 1) Table.empty).cell c t
            ∧ (∀ c2 t2,
                (getLoop [] fmtEx (3600 * 24) 100000
                    (0 + 3600 * 24 - 1) Table.empty).cell c2 t2 ≠ none →
                (100000 : Int) ≤ t2 → t ≤ t2)) :=
  ⟨by decide, claim4_amended cfgEx fmtEx [] 100000 0 (by decide)⟩

/-! ## Value-preservation helper lemmas -/

theorem Table.cell_loc_some (tb : Table) (lo hi : Int) (c : String)
    (ts : Int) (v : Rat) (h : (tb.loc lo hi).cell c ts = some v) :
    tb.cell c ts = some v := by
  rw [Table.cell_loc] at h
  by_cases hb : lo ≤ ts ∧ ts ≤ hi
  · rwa [if_pos hb] at h
  · rw [if_neg hb] at h
    exact absurd h (by simp)

theorem Table.cell_truncateBefore_some (tb : Table) (lo : Int) (c : String)
    (ts : Int) (v : Rat)
    (h : (tb.truncateBefore lo).cell c ts = some v) :
    tb.cell c ts = some v := by
  rw [Table.cell_truncateBefore] at h
  by_cases hb : lo ≤ ts
  · rwa [if_pos hb] at h
  · rw [if_neg hb] at h
    exact absurd h (by simp)

theorem Table.cell_head1_some_of_some (tb : Table) (c : String) (ts : Int)
    (v : Rat) (h : (tb.head1).cell c ts = some v) :
    tb.cell c ts = some v := by
  cases hm : tb.minTs with
  | none =>
    rw [Table.cell_head1_none tb hm] at h
    exact absurd h (by simp)
  | some t0 =>
    rw [Table.cell_head1_some tb t0 hm] at h
    by_cases he : ts = t0
    · subst he
      rwa [if_pos rfl] at h
    · rw [if_neg he] at h
      exact absurd h (by simp)

/-! ## Claim C6 -/

/-- C6 counterexample: a query spanning zero existing chunks does not
always return an empty table — when a resampling interval greater than
900 is requested, the accumulator is still the initial `pd.DataFrame()`
with a `RangeIndex` and `data.resample(...)` (database.py:154) raises
`TypeError`, so the call fails. -/
theorem claim6_counterexample :
    CsvDatabase.get cfgEx fmtEx [] (some 0) (some 0) (some 3600)
      = .error .typeError := rfl

/-- C6 amended: candidates whose chunk file does not exist are silently
skipped: without resampling (`interval` absent or at most 900) a query
never errors whatever the filesystem holds, a query touching no existing
chunk returns a table with no cells, and every returned cell originates
in some existing chunk file (no gap-filled rows).  With resampling
requested, a query succeeds when at least one candidate chunk exists and
raises `TypeError` when none does (resample on the initial frame's
`RangeIndex`). -/
theorem claim6_missing_chunks :
    (∀ (cfg : CsvConfig) (fmt : Int → String) (fs : Fs) (s e : Int),
      ∃ R, CsvDatabase.get cfg fmt fs (some s) (some e) none = .ok R)
    ∧ (∀ (cfg : CsvConfig) (fmt : Int → String) (fs : Fs) (s e iv : Int),
        iv ≤ 900 →
        ∃ R, CsvDatabase.get cfg fmt fs (some s) (some e) (some iv)
          = .ok R)
    ∧ (∀ (cfg : CsvConfig) (fmt : Int → String) (fs : Fs) (s e iv : Int),
        900 < iv →
        anyChunk fs fmt (3600 * cfg.interval) s
          (e + 3600 * cfg.interval - 1) = true →
        ∃ R, CsvDatabase.get cfg fmt fs (some s) (some e) (some iv)
          = .ok R)
    ∧ (∀ (cfg : CsvConfig) (fmt : Int → String) (fs : Fs) (s e iv : Int),
        900 < iv →
        anyChunk fs fmt (3600 * cfg.interval) s
          (e + 3600 * cfg.interval - 1) = false →
        CsvDatabase.get cfg fmt fs (some s) (some e) (some iv)
          = .error .typeError)
    ∧ (∀ (cfg : CsvConfig) (fmt : Int → String) (s e : Int) (R : Table),
        CsvDatabase.get cfg fmt [] (some s) (some e) none = .ok R →
        ∀ c ts, R.cell c ts = none)
    ∧ (∀ (cfg : CsvConfig) (fmt : Int → String) (fs : Fs) (s e : Int)
        (R : Table),
        CsvDatabase.get cfg fmt fs (some s) (some e) none = .ok R →
        ∀ c ts v, R.cell c ts = some v →
          ∃ p tb, fsLookup fs p = some tb ∧ tb.cell c ts = some v) := by
  refine ⟨?_, ?_, ?_, ?_, ?_, ?_⟩
  · intro cfg fmt fs s e
    by_cases hb : e + 3600 * cfg.interval - 1 < s
    · exact ⟨_, get_eq_head1 cfg fmt fs s e hb⟩
    · exact ⟨_, get_eq_loc cfg fmt fs s e (not_lt.mp hb)⟩
  · intro cfg fmt fs s e iv hiv
    rw [get_no_resample cfg fmt fs s e iv hiv]
    by_cases hb : e + 3600 * cfg.interval - 1 < s
    · exact ⟨_, get_eq_head1 cfg fmt fs s e hb⟩
    · exact ⟨_, get_eq_loc cfg fmt fs s e (not_lt.mp hb)⟩
  · intro cfg fmt fs s e iv hiv hany
    by_cases hb : e + 3600 * cfg.interval - 1 + iv < s
    · exact ⟨_, get_resample_eq_head1 cfg fmt fs s e iv hiv hany hb⟩
    · exact ⟨_, get_resample_eq_loc cfg fmt fs s e iv hiv hany
        (not_lt.mp hb)⟩
  · intro cfg fmt fs s e iv hiv hany
    exact get_resample_typeError cfg fmt fs s e iv hiv hany
  · intro cfg fmt s e R hR c ts
    by_cases hb : e + 3600 * cfg.interval - 1 < s
    · rw [get_eq_head1 cfg fmt [] s e hb] at hR
      injection hR with h
      subst h
      simp only [getLoop, getLoopN_nilFs]
      rfl
    · rw [get_eq_loc cfg fmt [] s e (not_lt.mp hb)] at hR
      injection hR with h
      subst h
      simp only [getLoop, getLoopN_nilFs]
      rfl
  · intro cfg fmt fs s e R hR c ts v hv
    by_cases hb : e + 3600 * cfg.interval - 1 < s
    · rw [get_eq_head1 cfg fmt fs s e hb] at hR
      injection hR with h
      subst h
      have h1 := Table.cell_truncateBefore_some _ _ _ _ _
        (Table.cell_head1_some_of_some _ _ _ _ hv)
      simp only [getLoop] at h1
      rcases getLoopN_cell_origin fs fmt (3600 * cfg.interval) _ _ _ _ _
          _ _ h1 with hacc | hex
      · exact absurd hacc (by simp [Table.empty, Table.cell, Table.getCol,
          lookupCol])
      · exact hex
    · rw [get_eq_loc cfg fmt fs s e (not_lt.mp hb)] at hR
      injection hR with h
      subst h
      have h1 := Table.cell_loc_some _ _ _ _ _ _ hv
      simp only [getLoop] at h1
      rcases getLoopN_cell_origin fs fmt (3600 * cfg.interval) _ _ _ _ _
          _ _ h1 with hacc | hex
      · exact absurd hacc (by simp [Table.empty, Table.cell, Table.getCol,
          lookupCol])
      · exact hex

/-- C6 witness: a query over an empty filesystem succeeds and yields a
cell-free table. -/
theorem claim6_witness :
    CsvDatabase.get cfgEx fmtEx [] (some 0) (some 0) none = .ok Table.empty
    ∧ Table.cell Table.empty "x" 0 = none :=
  ⟨rfl, claim6_missing_chunks.2.2.2.2.1 cfgEx fmtEx 0 0 Table.empty rfl
    "x" 0⟩

/-! ## Claim C7 -/

/-- C7: the chunk-union precedence and candidate iteration of `get`:
(1) `acc.combine_first(chunk)` lets every existing accumulator cell win,
a newly loaded chunk only filling cells absent so far; (2) the loading
loop is exactly a left fold of that combining step over the candidate
list; (3) for a positive step, the candidates are precisely
`start + k * step` for naturals `k`, while the candidate is `≤ end`. -/
theorem claim7_union_precedence :
    (∀ (a b : Table) (c : String) (ts : Int),
      (a.combine_first b).cell c ts
        = (a.cell c ts).orElse (fun _ => b.cell c ts))
    ∧ (∀ (fs : Fs) (fmt : Int → String) (step : Int) (n : Nat)
        (time endT : Int) (acc : Table),
        getLoopN fs fmt step n time endT acc
          = (candidatesN step n time endT).foldl (loadStep fs fmt) acc)
    ∧ (∀ step : Int, 0 < step → ∀ s e t : Int,
        t ∈ candidates step s e ↔
          ∃ k : Nat, t = s + k * step ∧ t ≤ e) :=
  ⟨Table.cell_combine_first, getLoopN_eq_foldl,
    fun step h s e t => mem_candidatesN step h _ s e t le_rfl⟩

/-- C7 witness: the candidate characterization at a concrete step. -/
theorem claim7_witness :
    ((0 : Int) < 86400)
    ∧ ((86400 : Int) ∈ candidates 86400 0 90000 ↔
        ∃ k : Nat, (86400 : Int) = 0 + k * 86400 ∧ (86400 : Int) ≤ 90000) :=
  ⟨by decide, claim7_union_precedence.2.2 86400 (by decide) 0 90000 86400⟩

/-! ## Claim C5 -/

/-- C5 counterexample: a resampled call (`interval = 7200 > 900`) whose
span holds no existing chunk file does not resample the accumulated
table — the accumulator is still the initial `pd.DataFrame()` with a
`RangeIndex`, on which `data.resample(...)` (database.py:154) raises
`TypeError` — refuting the for-every-call phrasing. -/
theorem claim5_counterexample :
    CsvDatabase.get cfgEx fmtEx [] (some 86400) (some 86400) (some 7200)
      = .error .typeError := rfl

/-- C5 amended: resampling in `get`, provided some candidate chunk file
exists (otherwise the accumulator has no time index and resample raises
`TypeError`): (1) an `interval` of at most 900 seconds changes nothing;
(2) the resample phase is the remainder of `start`'s time-of-day modulo
the interval, so two starts with the same time-of-day produce the same
phase whatever their day; (3) for `interval > 900`, every returned row's
timestamp is congruent to that phase modulo the interval; (4) for
`interval > 900` with an existing chunk, the considered end is extended
by exactly one interval width: the result is the closed slice of the
bin-summed accumulated table up to `end + bucket_width - 1s + interval`;
(5) for `interval > 900` with no existing chunk, the call raises
`TypeError`. -/
theorem claim5_resample :
    (∀ (cfg : CsvConfig) (fmt : Int → String) (fs : Fs) (s e iv : Int),
      iv ≤ 900 →
      CsvDatabase.get cfg fmt fs (some s) (some e) (some iv)
        = CsvDatabase.get cfg fmt fs (some s) (some e) none)
    ∧ (∀ s1 s2 iv : Int, s1.emod 86400 = s2.emod 86400 →
        resampleOffset s1 iv = resampleOffset s2 iv)
    ∧ (∀ (cfg : CsvConfig) (fmt : Int → String) (fs : Fs) (s e iv : Int)
        (R : Table), 900 < iv →
        CsvDatabase.get cfg fmt fs (some s) (some e) (some iv) = .ok R →
        ∀ c ts, R.cell c ts ≠ none →
          ts.emod iv = resampleOffset s iv)
    ∧ (∀ (cfg : CsvConfig) (fmt : Int → String) (fs : Fs) (s e iv : Int),
        900 < iv →
        anyChunk fs fmt (3600 * cfg.interval) s
          (e + 3600 * cfg.interval - 1) = true →
        s ≤ e + 3600 * cfg.interval - 1 + iv →
        CsvDatabase.get cfg fmt fs (some s) (some e) (some iv)
          = .ok (((getLoop fs fmt (3600 * cfg.interval) s
              (e + 3600 * cfg.interval - 1) Table.empty).resampleSum iv
                (resampleOffset s iv)).loc s
              (e + 3600 * cfg.interval - 1 + iv)))
    ∧ (∀ (cfg : CsvConfig) (fmt : Int → String) (fs : Fs) (s e iv : Int),
        900 < iv →
        anyChunk fs fmt (3600 * cfg.interval) s
          (e + 3600 * cfg.interval - 1) = false →
        CsvDatabase.get cfg fmt fs (some s) (some e) (some iv)
          = .error .typeError) := by
  refine ⟨fun cfg fmt fs s e iv h => get_no_resample cfg fmt fs s e iv h,
    ?_, ?_,
    fun cfg fmt fs s e iv hiv hany h =>
      get_resample_eq_loc cfg fmt fs s e iv hiv hany h,
    fun cfg fmt fs s e iv hiv hany =>
      get_resample_typeError cfg fmt fs s e iv hiv hany⟩
  · intro s1 s2 iv h
    rw [resampleOffset_eq, resampleOffset_eq, h]
  · intro cfg fmt fs s e iv R hiv hR c ts hc
    cases hany : anyChunk fs fmt (3600 * cfg.interval) s
        (e + 3600 * cfg.interval - 1) with
    | false =>
      rw [get_resample_typeError cfg fmt fs s e iv hiv hany] at hR
      exact absurd hR (by simp)
    | true =>
      by_cases hb : e + 3600 * cfg.interval - 1 + iv < s
      · rw [get_resample_eq_head1 cfg fmt fs s e iv hiv hany hb] at hR
        injection hR with h
        subst h
        have h1 := Table.cell_head1_ne_none _ _ _ hc
        rw [Table.cell_truncateBefore] at h1
        by_cases hs2 : s ≤ ts
        case neg =>
          rw [if_neg hs2] at h1
          exact absurd rfl h1
        rw [if_pos hs2] at h1
        obtain ⟨t2, ht2⟩ := Table.cell_resampleSum_key _ _ _ _ _ h1
        rw [ht2, binStart_emod]
        exact resampleOffset_emod s iv
      · rw [get_resample_eq_loc cfg fmt fs s e iv hiv hany
          (not_lt.mp hb)] at hR
        injection hR with h
        subst h
        rw [Table.cell_loc] at hc
        by_cases hb2 : s ≤ ts ∧ ts ≤ e + 3600 * cfg.interval - 1 + iv
        case neg =>
          rw [if_neg hb2] at hc
          exact absurd rfl hc
        rw [if_pos hb2] at hc
        obtain ⟨t2, ht2⟩ := Table.cell_resampleSum_key _ _ _ _ _ hc
        rw [ht2, binStart_emod]
        exact resampleOffset_emod s iv

/-- C5 witness: the no-resample equivalence at `interval = 600 ≤ 900`. -/
theorem claim5_witness :
    ((600 : Int) ≤ 900)
    ∧ CsvDatabase.get cfgEx fmtEx [] (some 0) (some 0) (some 600)
        = CsvDatabase.get cfgEx fmtEx [] (some 0) (some 0) none :=
  ⟨by decide, claim5_resample.1 cfgEx fmtEx [] 0 0 600 (by decide)⟩

/-! ## Claim C8 -/

/-- C8 counterexample: reading a zero-byte chunk file is not error-free —
`pd.read_csv` raises `EmptyDataError` ("No columns to parse from file"),
which `_read_file` does not catch — refuting the claim for the zero-byte
half. -/
theorem claim8_counterexample :
    CsvDatabase.readFile cfgEx ⟨[], []⟩ = .error .emptyDataError := rfl

/-- C8 amended: a header-only chunk file (its first column being the
configured index column) yields an empty table, without error, with the
index named `time` like populated tables; a zero-byte file instead
raises `EmptyDataError`. -/
theorem claim8_amended (cfg : CsvConfig) (rest : List String) :
    CsvDatabase.readFile cfg ⟨cfg.index_column :: rest, []⟩
      = .ok ⟨"time", [], rest, []⟩
    ∧ CsvDatabase.readFile cfg ⟨[], []⟩ = .error .emptyDataError := by
  constructor
  · simp [CsvDatabase.readFile, read_csv, ParsedDF.isEmpty, Bind.bind,
      Except.bind, Pure.pure, Except.pure]
  · rfl

/-! ## Claim C9 -/

/-- C9 counterexample: with `index_column = 'date'`, `_read_file` parses
the file (indexing by `date`, localizing to UTC, renaming to `time`),
but the merge-read of `_write_file` hardcodes `index_col='time'` and
raises `ValueError` on the very same file — the merge-read does not
honour the configured read contract. -/
theorem claim9_counterexample :
    CsvDatabase.readFile ⟨false, 24, "date", false⟩
        ⟨["date", "x"], [(.dtNaive 0, [1])]⟩
      = .ok ⟨"time", [.aware 0], ["x"], [[1]]⟩
    ∧ CsvDatabase.writeFileReadExisting ⟨false, 24, "date", false⟩
        ⟨["date", "x"], [(.dtNaive 0, [1])]⟩
      = .error .valueError :=
  ⟨rfl, rfl⟩

/-- C9 amended: the merge-read agrees with `_read_file` exactly on the
configurations and files it was written for: `index_column = 'time'`,
`index_unix` disabled, and every index entry an offset-less datetime
text (then both parse, localize to UTC and agree); otherwise the two
reads diverge (see the counterexample). -/
theorem claim9_amended (cfg : CsvConfig) (f : FileContent)
    (h1 : cfg.index_column = "time") (h2 : cfg.index_unix = false)
    (h3 : (f.rows.all (fun r => r.1.isNaive)) = true) :
    CsvDatabase.writeFileReadExisting cfg f = CsvDatabase.readFile cfg f := by
  obtain ⟨header, rows⟩ := f
  unfold CsvDatabase.writeFileReadExisting CsvDatabase.readFile
  rw [h1]
  cases header with
  | nil => rfl
  | cons c0 rest =>
    by_cases hc : c0 = "time"
    case neg => simp [read_csv, hc, Bind.bind, Except.bind]
    subst hc
    simp only [read_csv, if_pos rfl, h2]
    cases rows with
    | nil =>
      simp [ParsedDF.isEmpty, Bind.bind, Except.bind, Pure.pure,
        Except.pure]
    | cons r rows2 =>
      obtain ⟨ri, rv⟩ := r
      cases rest with
      | nil =>
        simp [ParsedDF.isEmpty, Bind.bind, Except.bind, Pure.pure,
          Except.pure]
      | cons cn rest2 =>
        cases ri with
        | dtNaive s =>
          cases hloc : localizeUtc
              (((IdxRaw.dtNaive s, rv) :: rows2).map
                (fun r => parseDate r.1)) with
          | error err =>
            simp [ParsedDF.isEmpty, Bind.bind, Except.bind, Pure.pure,
              Except.pure, tzinfoIsNone, parseDate, hloc]
          | ok idx2 =>
            simp [ParsedDF.isEmpty, Bind.bind, Except.bind, Pure.pure,
              Except.pure, tzinfoIsNone, parseDate, hloc]
        | dtAware s =>
          simp [List.all_cons, IdxRaw.isNaive] at h3
        | unixMs n =>
          simp [List.all_cons, IdxRaw.isNaive] at h3

/-- C9 witness: the amended agreement at a concrete `time`-indexed,
naive-datetime chunk file. -/
theorem claim9_witness :
    CsvConfig.index_column ⟨false, 24, "time", false⟩ = "time"
    ∧ CsvConfig.index_unix ⟨false, 24, "time", false⟩ = false
    ∧ ((FileContent.rows ⟨["time", "x"], [(.dtNaive 0, [1])]⟩).all
        (fun r => r.1.isNaive)) = true
    ∧ CsvDatabase.writeFileReadExisting ⟨false, 24, "time", false⟩
        ⟨["time", "x"], [(.dtNaive 0, [1])]⟩
      = CsvDatabase.readFile ⟨false, 24, "time", false⟩
          ⟨["time", "x"], [(.dtNaive 0, [1])]⟩ :=
  ⟨rfl, rfl, rfl,
    claim9_amended ⟨false, 24, "time", false⟩
      ⟨["time", "x"], [(.dtNaive 0, [1])]⟩ rfl rfl rfl⟩
